import Mathlib

/-!
Verification of the dnd-kit index-problem demo: a shallow embedding of the
ordered-collection handlers (`useDragAndDrop`: `handleDragEnd`, `deleteItem`,
`addItem`), the action-history hook (`useHistory`: `addHistoryEntry`,
`getRecentHistory`), the `App.jsx` wrong/correct variant handlers, and the
`App.refactored.jsx` coordinator handlers, together with theorems about the
specified properties.

Conventions of the embedding:
* A JavaScript array of entities is a `List`; a JavaScript array slot that may
  hold `undefined` is an `Option`.
* Machine integers used as indices are `Int` (JavaScript indices may be `-1`).
* The wall clock (`new Date().toLocaleTimeString()`) is passed in explicitly as
  a `Nat` parameter `now`.
* A handler that either returns `null` (no state update) or returns a result
  object and calls its `set...` updater is a function into `Option`.
-/

namespace DndSpec

/-- An entity of the ordered collection: `{ id, value }` as built by
`createItemWithId` / the seed lists in `App.jsx`. -/
structure Entity where
  id : String
  value : String
deriving DecidableEq, Repr

/-- A history entry as built by `useHistory.addHistoryEntry` in
`src/hooks/useHistory.js`: `{ type, message, timestamp, warning }`.
The timestamp is the abstracted wall-clock reading. -/
structure HistoryEntry where
  type : String
  message : String
  timestamp : Nat
  warning : Bool
deriving DecidableEq, Repr

/-- A dnd-kit drag-end event as consumed by the handlers: `active.id` together
with `over`, which may be `null` (`none`); when present it carries `over.id`.
The reference type `ρ` is `String` in identity mode and `Int` in index mode. -/
structure DragEvent (ρ : Type) where
  activeId : ρ
  over : Option ρ
deriving DecidableEq, Repr

/-- The result object returned by `useDragAndDrop.handleDragEnd` on a
performed move: `{ oldIndex, newIndex, activeId, overId }`. -/
structure MoveResult (ρ : Type) where
  oldIndex : Int
  newIndex : Int
  activeId : ρ
  overId : ρ
deriving DecidableEq, Repr

/-- JavaScript `Array.prototype.splice` start-index normalisation against a
given array length: a negative start counts from the end (clamped below at 0),
a non-negative start is clamped above at the length. -/
def jsSpliceStart (len : Nat) (i : Int) : Nat :=
  if i < 0 then ((len : Int) + i).toNat else min i.toNat len

/-- JavaScript `arr.splice(i, 1)`: the array after removal together with the
removed element (`none` when the normalised start lies past the end, in which
case `splice` removes nothing and yields `undefined` as `[0]`). -/
def jsSpliceRemove1 (l : List α) (i : Int) : List α × Option α :=
  let s := jsSpliceStart l.length i
  match l[s]? with
  | some x => (l.take s ++ l.drop (s + 1), some x)
  | none => (l, none)

/-- JavaScript `arr.splice(i, 0, x)`: insertion of one element at the
normalised start index. -/
def jsSpliceInsert1 (l : List α) (i : Int) (x : α) : List α :=
  let s := jsSpliceStart l.length i
  l.take s ++ x :: l.drop s

/-- Fully faithful embedding of dnd-kit `arrayMove(array, from, to)`:
`newArray.splice(to < 0 ? newArray.length + to : to, 0, newArray.splice(from, 1)[0])`
on a copy.  The insertion index is computed against the pre-removal length
(arguments evaluate left to right), the inner splice then removes, and the
outer splice inserts `splice(from,1)[0]` — which is `undefined` (`none`) when
the removal found nothing.  Slots are `Option α`, with `none` standing for
`undefined`. -/
def arrayMoveJS (l : List α) (f t : Int) : List (Option α) :=
  let arr := l.map some
  let insIdx : Int := if t < 0 then (arr.length : Int) + t else t
  let r := jsSpliceRemove1 arr f
  jsSpliceInsert1 r.1 insIdx r.2.join

/-- dnd-kit `arrayMove` restricted to plain entity slots: identical to
`arrayMoveJS` exactly when the normalised removal index hits an element
(lemma `arrayMoveJS_eq_map_some`); when the removal finds nothing this
returns the array without the `undefined` hole that JavaScript would insert.
It is therefore only used where that hypothesis is established — the
identity-mode handlers, whose `-1` guards (or nonemptiness) force a hit, and
concrete in-range replays; the unguarded index-mode handler
`handleDragEndIndex` uses the fully faithful `arrayMoveJS` instead. -/
def arrayMove (l : List α) (f t : Int) : List α :=
  let insIdx : Int := if t < 0 then (l.length : Int) + t else t
  match jsSpliceRemove1 l f with
  | (l', some x) => jsSpliceInsert1 l' insIdx x
  | (l', none) => l'

/-- The `findIndexById` callback passed to `useDragAndDrop` in
`App.refactored.jsx`: `items.findIndex(item => item.id === id)`, i.e. the
first matching index or `-1`. -/
def findIndexById (items : List Entity) (i : String) : Int :=
  match items.findIdx? (fun it => it.id == i) with
  | some n => (n : Int)
  | none => -1

/-- `useDragAndDrop.handleDragEnd` (src/hooks/useDragAndDrop.js, shipped
inside src/utils/idGenerators.js lines 98–121), instantiated in identity mode
(`findIndexById` supplied): returns `null` (`none`) when `over` is null, when
`active.id === over.id`, or when either lookup yields `-1`; otherwise updates
the items to `arrayMove items oldIndex newIndex` and returns the result
object. -/
def handleDragEnd (items : List Entity) (ev : DragEvent String) :
    Option (MoveResult String × List Entity) :=
  match ev.over with
  | none => none
  | some overId =>
    if ev.activeId = overId then none
    else
      if findIndexById items ev.activeId = -1 ∨ findIndexById items overId = -1 then
        none
      else
        some (⟨findIndexById items ev.activeId, findIndexById items overId,
               ev.activeId, overId⟩,
              arrayMove items (findIndexById items ev.activeId)
                (findIndexById items overId))

/-- `useDragAndDrop.handleDragEnd` instantiated in index mode (no
`findIndexById`): `oldIndex`/`newIndex` are the raw `active.id`/`over.id`
positions themselves; the `-1` guard still applies to those raw values, but
no range guard exists, so a stale position past the end reaches `arrayMove`
unchecked and JavaScript then inserts an `undefined` slot.  The new items are
therefore given by the fully faithful `arrayMoveJS`, with `none` standing for
such an `undefined` slot. -/
def handleDragEndIndex (items : List String) (ev : DragEvent Int) :
    Option (MoveResult Int × List (Option String)) :=
  match ev.over with
  | none => none
  | some overId =>
    if ev.activeId = overId then none
    else
      if ev.activeId = -1 ∨ overId = -1 then none
      else some (⟨ev.activeId, overId, ev.activeId, overId⟩,
                 arrayMoveJS items ev.activeId overId)

/-- `useDragAndDrop.deleteItem` in identity mode:
`prevItems.filter(item => item.id !== idOrIndex)`. -/
def deleteItemById (items : List Entity) (i : String) : List Entity :=
  items.filter (fun it => it.id != i)

/-- `useDragAndDrop.deleteItem` in index mode:
`prevItems.filter((_, index) => index !== idOrIndex)`. -/
def deleteItemByIndex (l : List α) (i : Int) : List α :=
  ((l.enum).filter (fun p => ((p.1 : Int) != i))).map Prod.snd

/-- `useDragAndDrop.addItem`: `[...prevItems, item]`. -/
def addItem (items : List Entity) (e : Entity) : List Entity :=
  items ++ [e]

/-- JavaScript subscript read `l[i]`: `undefined` (`none`) outside
`[0, length)`; there is no negative indexing for subscripts. -/
def jsGet (l : List α) (i : Int) : Option α :=
  if 0 ≤ i then l[i.toNat]? else none

/-- Template interpolation of a possibly-`undefined` string value. -/
def jsShow (v : Option String) : String :=
  v.getD "undefined"

/-- `UI_CONSTANTS.HISTORY_DISPLAY_LIMIT` from src/constants/index.js. -/
def HISTORY_DISPLAY_LIMIT : Nat := 5

/-- `useHistory.addHistoryEntry(type, message, isWarning = false)`
(src/hooks/useHistory.js lines 11–20): builds the entry with the current
wall-clock reading `now` and appends it, `[...prevHistory, entry]`. -/
def addHistoryEntry (history : List HistoryEntry) (type message : String)
    (now : Nat) (isWarning : Bool) : List HistoryEntry :=
  history ++ [⟨type, message, now, isWarning⟩]

/-- `useHistory.getRecentHistory` (src/hooks/useHistory.js lines 26–28):
`history.slice(-UI_CONSTANTS.HISTORY_DISPLAY_LIMIT).reverse()`.  `slice`
copies, and `reverse` acts on that copy, so the log itself is untouched; the
embedding is a pure view of the log. -/
def getRecentHistory (history : List HistoryEntry) : List HistoryEntry :=
  (history.drop (history.length - HISTORY_DISPLAY_LIMIT)).reverse

/-- A sequence of `record` calls at the given wall-clock readings, starting
from an empty log (used to exercise the capacity behaviour of the log). -/
def recordTimes (ts : List Nat) : List HistoryEntry :=
  ts.foldl (fun h n => addHistoryEntry h "t" "m" n false) []

/-- A concrete chronologically ordered two-entry log (used to witness the
recent-view properties). -/
def twoEntryLog : List HistoryEntry :=
  [⟨"t", "m", 0, false⟩, ⟨"t", "m", 1, false⟩]

/-- The initial seed values `['Položka A', 'Položka B', 'Položka C', 'Položka D']`
(`INITIAL_ITEMS` in src/constants/index.js and the `wrongItems` seed in
`App.jsx`). -/
def initialWrongItems : List String :=
  ["Položka A", "Položka B", "Položka C", "Položka D"]

/-- State of the `App.jsx` wrong (index-mode) variant: `wrongItems` together
with the shared `dragHistory`. -/
structure WrongState where
  items : List String
  dragHistory : List HistoryEntry
deriving DecidableEq, Repr

/-- `App.jsx` `handleWrongDragEnd` (lines 142–162): when `active.id !== over.id`
the raw positions are fed to `arrayMove` directly and a history entry is
pushed; no null-over, `-1`, or range guard exists (a null `over` would throw
on `over.id` before any state change, so non-throwing executions carry a
present `overId`).  The pushed entry has no `warning` key, i.e. a falsy
warning flag. -/
def handleWrongDragEndApp (s : WrongState) (activeId overId : Int) (now : Nat) :
    WrongState :=
  if activeId ≠ overId then
    { items := arrayMove s.items activeId overId,
      dragHistory := s.dragHistory ++
        [⟨"wrong",
          "Přesunuto z indexu " ++ toString activeId ++ " na index " ++ toString overId,
          now, false⟩] }
  else s

/-- `App.jsx` `handleWrongDelete` (lines 211–222): reads `items[index]`
(possibly `undefined`), pushes a warning-flagged history entry interpolating
it, and filters out the position `index`. -/
def handleWrongDeleteApp (s : WrongState) (index : Int) (now : Nat) : WrongState :=
  { items := deleteItemByIndex s.items index,
    dragHistory := s.dragHistory ++
      [⟨"wrong",
        "Smazána položka \"" ++ jsShow (jsGet s.items index) ++ "\" na indexu "
          ++ toString index,
        now, true⟩] }

/-- State of the `App.jsx` correct (identity-mode) variant: `correctItems`
together with the shared `dragHistory`. -/
structure CorrectState where
  items : List Entity
  dragHistory : List HistoryEntry
deriving DecidableEq, Repr

/-- `App.jsx` `handleCorrectDragEnd` (lines 188–208): when
`active.id !== over.id`, both ids are resolved with `findIndex` (no `-1`
guard) and `arrayMove` is applied on whatever resolved, with a history entry
pushed alongside (a null `over` would throw on `over.id` before any state
change, so non-throwing executions carry a present `overId`). -/
def handleCorrectDragEndApp (s : CorrectState) (activeId overId : String)
    (now : Nat) : CorrectState :=
  if activeId ≠ overId then
    { items := arrayMove s.items (findIndexById s.items activeId)
        (findIndexById s.items overId),
      dragHistory := s.dragHistory ++
        [⟨"correct",
          "Přesunuto položku s ID " ++ activeId ++ " na pozici "
            ++ toString (findIndexById s.items overId),
          now, false⟩] }
  else s

/-- State of an `App.refactored.jsx` identity-mode variant (generated or
correct): the hook's items together with the `useHistory` log. -/
structure GenState where
  items : List Entity
  history : List HistoryEntry
deriving DecidableEq, Repr

/-- `App.refactored.jsx` `handleGeneratedDragEnd` (lines 87–95): delegates to
the identity-mode `handleDragEnd`; only when that returns a result object is a
history entry recorded — a `null` result (null over, no-op, or a `-1` lookup)
leaves both the items and the history untouched. -/
def handleGeneratedDragEnd (s : GenState) (ev : DragEvent String) (now : Nat) :
    GenState :=
  match handleDragEnd s.items ev with
  | some (r, newItems) =>
      ⟨newItems,
        addHistoryEntry s.history "generated"
          ("Přesunuto položku s ID " ++ r.activeId ++ " na pozici " ++ toString r.newIndex)
          now false⟩
  | none => s

/-- State of the `App.refactored.jsx` wrong (index-mode) variant. -/
structure WrongGenState where
  items : List String
  history : List HistoryEntry
deriving DecidableEq, Repr

/-- `App.refactored.jsx` `handleWrongDelete` (lines 76–84): reads
`wrongVariant.items[index]` (possibly `undefined`), deletes by position, and
unconditionally records a warning-flagged entry
`MESSAGES.DELETE_ITEM(deletedItem, 'index')`, whose template interpolates only
the value. -/
def handleWrongDelete (s : WrongGenState) (index : Int) (now : Nat) :
    WrongGenState :=
  ⟨deleteItemByIndex s.items index,
    addHistoryEntry s.history "wrong"
      ("Smazána položka \"" ++ jsShow (jsGet s.items index) ++ "\"") now true⟩

/-- Inserting one element with splice semantics is a permutation of consing
it. -/
theorem jsSpliceInsert1_perm (l : List α) (i : Int) (x : α) :
    (jsSpliceInsert1 l i x).Perm (x :: l) := by
  unfold jsSpliceInsert1
  refine List.perm_middle.trans ?_
  rw [List.take_append_drop]

/-- When the normalised removal index hits an element, `splice(from, 1)`
removes exactly that element. -/
theorem jsSpliceRemove1_of_lt (l : List α) (f : Int)
    (h : jsSpliceStart l.length f < l.length) :
    jsSpliceRemove1 l f =
      (l.take (jsSpliceStart l.length f) ++ l.drop (jsSpliceStart l.length f + 1),
       some (l.get ⟨jsSpliceStart l.length f, h⟩)) := by
  unfold jsSpliceRemove1
  simp [List.getElem?_eq_getElem h]

/-- Removing one element and reinserting it is a permutation whenever the
removal index hits an element — `arrayMove` never changes, drops, or
duplicates an element in that case. -/
theorem arrayMove_perm (l : List α) (f t : Int)
    (hf : jsSpliceStart l.length f < l.length) : (arrayMove l f t).Perm l := by
  unfold arrayMove
  rw [jsSpliceRemove1_of_lt l f hf]
  refine (jsSpliceInsert1_perm _ _ _).trans ?_
  have h1 : l.take (jsSpliceStart l.length f) ++
      l.get ⟨jsSpliceStart l.length f, hf⟩ :: l.drop (jsSpliceStart l.length f + 1) = l := by
    rw [List.get_eq_getElem, List.getElem_cons_drop, List.take_append_drop]
  conv_rhs => rw [← h1]
  exact List.perm_middle.symm

/-- On inputs where the removal index hits an element, the plain `arrayMove`
agrees with the fully faithful `arrayMoveJS` — no `undefined` hole appears. -/
theorem arrayMoveJS_eq_map_some (l : List α) (f t : Int)
    (hf : jsSpliceStart l.length f < l.length) :
    arrayMoveJS l f t = (arrayMove l f t).map some := by
  have hlen : (l.map some).length = l.length := List.length_map l some
  have hf' : jsSpliceStart (l.map some).length f < (l.map some).length := by
    rw [hlen]; exact hf
  simp only [arrayMoveJS, arrayMove]
  rw [jsSpliceRemove1_of_lt l f hf, jsSpliceRemove1_of_lt (l.map some) f hf']
  simp only [hlen, Option.join]
  unfold jsSpliceInsert1
  simp only [List.length_append, List.length_take, List.length_drop,
    List.length_map, List.map_append, List.map_take, List.map_drop]
  simp only [List.get_eq_getElem, List.getElem_map, Option.some_bind, id_eq]
  simp only [← List.map_take, ← List.map_drop, ← List.map_cons, ← List.map_append]

/-- A non-`-1` result of `findIndexById` is a genuine index: its splice
normalisation stays strictly below the length. -/
theorem findIndexById_spliceStart_lt (items : List Entity) (i : String)
    (h : findIndexById items i ≠ -1) :
    jsSpliceStart items.length (findIndexById items i) < items.length := by
  unfold findIndexById at h ⊢
  cases hf : items.findIdx? (fun it => it.id == i) with
  | none => rw [hf] at h; exact absurd rfl h
  | some n =>
    have hn : n < items.length :=
      (List.findIdx?_eq_some_iff_findIdx_eq.mp hf).1
    have hgoal : jsSpliceStart items.length ((n : Nat) : Int) < items.length := by
      unfold jsSpliceStart
      rw [if_neg (by omega)]
      simpa using hn
    exact hgoal

/-- On a nonempty collection, even a failed lookup (`-1`) normalises to a
genuine index under splice semantics (the last position). -/
theorem findIndexById_spliceStart_lt_of_ne_nil (items : List Entity) (i : String)
    (h : items ≠ []) :
    jsSpliceStart items.length (findIndexById items i) < items.length := by
  by_cases hne : findIndexById items i = -1
  · rw [hne]
    unfold jsSpliceStart
    rw [if_pos (by norm_num)]
    have hpos : 0 < items.length := List.length_pos.mpr h
    omega
  · exact findIndexById_spliceStart_lt items i hne

/-- The recent-history view always holds `min HISTORY_DISPLAY_LIMIT size`
entries. -/
theorem getRecentHistory_length (h : List HistoryEntry) :
    (getRecentHistory h).length = min HISTORY_DISPLAY_LIMIT h.length := by
  unfold getRecentHistory
  rw [List.length_reverse, List.length_drop]
  omega

/-- Deleting by a position that equals no index of the list keeps the list
intact. -/
theorem deleteItemByIndex_out_of_range (l : List α) (i : Int)
    (h : ∀ j : Nat, j < l.length → (j : Int) ≠ i) :
    deleteItemByIndex l i = l := by
  unfold deleteItemByIndex
  have hfilter : (l.enum).filter (fun p => ((p.1 : Int) != i)) = l.enum := by
    apply List.filter_eq_self.mpr
    intro p hp
    have hlt : p.1 < l.length := by
      have := List.mem_enum_iff_getElem?.mp hp
      exact (List.getElem?_eq_some.mp this).1
    simpa using h p.1 hlt
  rw [hfilter, List.enum_map_snd]

/-- When the normalised source index hits an element, `arrayMoveJS` permutes
the entity slots: the result holds exactly the original entities, each still
wrapped in `some`, with no `undefined` hole. -/
theorem arrayMoveJS_perm_of_hit (l : List α) (f t : Int)
    (hf : jsSpliceStart l.length f < l.length) :
    (arrayMoveJS l f t).Perm (l.map some) := by
  rw [arrayMoveJS_eq_map_some l f t hf]
  exact (arrayMove_perm l f t hf).map some

/-- When the normalised source index lies past the end, `splice(from, 1)`
removes nothing, its `[0]` is `undefined`, and the outer splice inserts that
`undefined`: the result is a permutation of one `none` slot together with all
original entities — the array grows by one. -/
theorem arrayMoveJS_perm_of_miss (l : List α) (f t : Int)
    (hf : l.length ≤ jsSpliceStart l.length f) :
    (arrayMoveJS l f t).Perm (none :: l.map some) := by
  have hlen : (l.map some).length = l.length := List.length_map l some
  have hmiss : jsSpliceRemove1 (l.map some) f = (l.map some, none) := by
    have hnone : (l.map some)[jsSpliceStart (l.map some).length f]? = none := by
      apply List.getElem?_eq_none
      rw [hlen]
      exact hf
    simp only [jsSpliceRemove1]
    rw [hnone]
  simp only [arrayMoveJS, hmiss]
  exact jsSpliceInsert1_perm _ _ _

/-- A subscript read outside `[0, length)` yields `undefined`. -/
theorem jsGet_out_of_range (l : List α) (i : Int)
    (h : i < 0 ∨ (l.length : Int) ≤ i) : jsGet l i = none := by
  unfold jsGet
  rcases h with h | h
  · rw [if_neg (by omega)]
  · by_cases h0 : 0 ≤ i
    · rw [if_pos h0]
      apply List.getElem?_eq_none
      omega
    · rw [if_neg h0]

/-- Deleting by an out-of-range position keeps the list intact. -/
theorem deleteItemByIndex_oob (l : List α) (i : Int)
    (h : i < 0 ∨ (l.length : Int) ≤ i) : deleteItemByIndex l i = l := by
  apply deleteItemByIndex_out_of_range
  intro j hj
  rcases h with h | h <;> omega

/-- C1: every id present before a move remains present with the same value
after the move — a move performed by `handleDragEnd` via `arrayMove` on the
resolved `oldIndex` and `newIndex` only permutes the entities and never
changes, drops, or duplicates any `{id, value}` pair (stated as a list
permutation plus multiplicity preservation of every entity pair); likewise
for `App.jsx`'s `handleCorrectDragEnd` on any nonempty collection.  Since the
statement quantifies over every collection state, it covers all states
reachable by any sequence of move, insert, and remove operations. -/
theorem C1_move_only_permutes :
    (∀ (items : List Entity) (ev : DragEvent String) (r : MoveResult String)
        (out : List Entity), handleDragEnd items ev = some (r, out) →
        out.Perm items ∧ ∀ e : Entity, out.count e = items.count e) ∧
    (∀ (s : CorrectState) (a o : String) (now : Nat), s.items ≠ [] →
        ((handleCorrectDragEndApp s a o now).items).Perm s.items) := by
  constructor
  · intro items ev r out h
    obtain ⟨a, over⟩ := ev
    cases over with
    | none => simp [handleDragEnd] at h
    | some overId =>
      simp only [handleDragEnd] at h
      by_cases heq : a = overId
      · rw [if_pos heq] at h
        exact absurd h (by simp)
      · rw [if_neg heq] at h
        by_cases hneg : findIndexById items a = -1 ∨ findIndexById items overId = -1
        · rw [if_pos hneg] at h
          exact absurd h (by simp)
        · rw [if_neg hneg] at h
          push_neg at hneg
          have hout := congrArg Prod.snd (Option.some.inj h)
          simp only at hout
          subst hout
          have hperm : (arrayMove items (findIndexById items a)
              (findIndexById items overId)).Perm items :=
            arrayMove_perm items _ _ (findIndexById_spliceStart_lt items a hneg.1)
          exact ⟨hperm, fun e => hperm.count_eq e⟩
  · intro s a o now hne
    unfold handleCorrectDragEndApp
    split_ifs with hneq
    · exact arrayMove_perm _ _ _ (findIndexById_spliceStart_lt_of_ne_nil s.items a hne)
    · exact List.Perm.refl _

/-- Witness for C1: a concrete performed move on `[a, b]` (dragging `a` onto
`b`) yields `[b, a]`, a permutation of the original, in both the hook and the
`App.jsx` handler. -/
theorem C1_witness :
    ([Entity.mk "b" "B", Entity.mk "a" "A"]).Perm
      [Entity.mk "a" "A", Entity.mk "b" "B"] ∧
    ((handleCorrectDragEndApp ⟨[Entity.mk "a" "A", Entity.mk "b" "B"], []⟩
        "a" "b" 0).items).Perm [Entity.mk "a" "A", Entity.mk "b" "B"] :=
  ⟨(C1_move_only_permutes.1 [Entity.mk "a" "A", Entity.mk "b" "B"]
      ⟨"a", some "b"⟩ ⟨0, 1, "a", "b"⟩ [Entity.mk "b" "B", Entity.mk "a" "A"]
      (by decide)).1,
   C1_move_only_permutes.2 ⟨[Entity.mk "a" "A", Entity.mk "b" "B"], []⟩
      "a" "b" 0 (by decide)⟩

/-- C2: in index mode, starting from the seeded 4-entity collection, deleting
the entity at index 1 and then performing `move(2, 0)` moves the entity now at
index 2 — `Položka D` — which does not match the entity originally denoted by
index 2 before the deletion, `Položka C`; the resulting collection is
`[Položka D, Položka A, Položka C]`.  Reproduced from `App.jsx`'s
`handleWrongDelete` and `handleWrongDragEnd`. -/
theorem C2_stale_index_moves_wrong_entity :
    (handleWrongDeleteApp ⟨initialWrongItems, []⟩ 1 0).items
      = ["Položka A", "Položka C", "Položka D"] ∧
    jsGet (handleWrongDeleteApp ⟨initialWrongItems, []⟩ 1 0).items 2
      = some "Položka D" ∧
    jsGet initialWrongItems 2 = some "Položka C" ∧
    jsGet (handleWrongDeleteApp ⟨initialWrongItems, []⟩ 1 0).items 2
      ≠ jsGet initialWrongItems 2 ∧
    (handleWrongDragEndApp (handleWrongDeleteApp ⟨initialWrongItems, []⟩ 1 0)
        2 0 1).items
      = ["Položka D", "Položka A", "Položka C"] := by
  decide

/-- C8 counterexample: a reorder request whose `over` reference is null is
answered with the very same quiet `null` result as the ordinary no-op request
(`activeRef = overRef`) on a concrete collection — it is handled as a normal
negative outcome, not as a loud failure distinct from the recoverable
kinds. -/
theorem C8_counterexample :
    handleDragEnd [Entity.mk "a" "A"] ⟨"a", none⟩ = none ∧
    handleDragEnd [Entity.mk "a" "A"] ⟨"a", none⟩
      = handleDragEnd [Entity.mk "a" "A"] ⟨"a", some "a"⟩ := by
  decide

/-- C8 amended: a reorder request carrying a null `over` reference is quietly
aborted by `handleDragEnd` with a `null` result and no mutation — the same
outcome as the no-op request — rather than failing loudly in a way distinct
from the recoverable error kinds. -/
theorem C8_null_over_quietly_ignored :
    ∀ (items : List Entity) (a : String),
      handleDragEnd items ⟨a, none⟩ = none ∧
      handleDragEnd items ⟨a, none⟩ = handleDragEnd items ⟨a, some a⟩ := by
  intro items a
  refine ⟨rfl, ?_⟩
  simp [handleDragEnd]

/-- C3 counterexample: in identity mode, a reorder request whose `activeRef`
does not resolve (id `x` absent from the collection) is aborted with no
mutation, but no `ReferenceStale` warning is logged: the history remains
empty, contradicting the claim that a warning history entry is recorded. -/
theorem C3_counterexample :
    (handleGeneratedDragEnd ⟨[Entity.mk "a" "A"], []⟩ ⟨"x", some "a"⟩ 0).items
      = [Entity.mk "a" "A"] ∧
    (handleGeneratedDragEnd ⟨[Entity.mk "a" "A"], []⟩ ⟨"x", some "a"⟩ 0).history
      = [] := by
  decide

/-- C3 amended: in identity mode, if `activeRef` or `overRef` does not
resolve to any entity's current index, the request is aborted with no
mutation and silently — no history entry of any kind is recorded; if the
`over` reference is null or `activeRef` equals `overRef`, the request is
likewise aborted as a no-op; otherwise the move is performed on the resolved
indices and exactly one history entry is recorded. -/
theorem C3_identity_mode_abort_silently :
    ∀ (s : GenState) (ev : DragEvent String) (now : Nat),
      (ev.over = none → handleGeneratedDragEnd s ev now = s) ∧
      (∀ o, ev.over = some o → ev.activeId = o →
        handleGeneratedDragEnd s ev now = s) ∧
      (∀ o, ev.over = some o → ev.activeId ≠ o →
        (findIndexById s.items ev.activeId = -1 ∨ findIndexById s.items o = -1) →
        handleGeneratedDragEnd s ev now = s) ∧
      (∀ o, ev.over = some o → ev.activeId ≠ o →
        findIndexById s.items ev.activeId ≠ -1 → findIndexById s.items o ≠ -1 →
        (handleGeneratedDragEnd s ev now).items
          = arrayMove s.items (findIndexById s.items ev.activeId)
              (findIndexById s.items o) ∧
        (handleGeneratedDragEnd s ev now).history.length
          = s.history.length + 1) := by
  intro s ev now
  obtain ⟨a, over⟩ := ev
  refine ⟨?_, ?_, ?_, ?_⟩
  · intro hov
    subst hov
    rfl
  · intro o hov heq
    subst hov
    have heq' : a = o := heq
    simp [handleGeneratedDragEnd, handleDragEnd, heq']
  · intro o hov hne hneg
    subst hov
    have hnone : handleDragEnd s.items ⟨a, some o⟩ = none := by
      simp only [handleDragEnd]
      rw [if_neg hne, if_pos hneg]
    simp [handleGeneratedDragEnd, hnone]
  · intro o hov hne h1 h2
    subst hov
    have hsome : handleDragEnd s.items ⟨a, some o⟩
        = some (⟨findIndexById s.items a, findIndexById s.items o, a, o⟩,
            arrayMove s.items (findIndexById s.items a) (findIndexById s.items o)) := by
      simp only [handleDragEnd]
      rw [if_neg hne, if_neg (by tauto)]
    constructor
    · simp [handleGeneratedDragEnd, hsome]
    · simp [handleGeneratedDragEnd, hsome, addHistoryEntry]

/-- Witness for the amended C3 at a concrete input: a resolvable two-entity
move mutates the items and records exactly one history entry. -/
theorem C3_witness :
    (handleGeneratedDragEnd ⟨[Entity.mk "a" "A", Entity.mk "b" "B"], []⟩
        ⟨"a", some "b"⟩ 3).items
      = arrayMove [Entity.mk "a" "A", Entity.mk "b" "B"]
          (findIndexById [Entity.mk "a" "A", Entity.mk "b" "B"] "a")
          (findIndexById [Entity.mk "a" "A", Entity.mk "b" "B"] "b") ∧
    (handleGeneratedDragEnd ⟨[Entity.mk "a" "A", Entity.mk "b" "B"], []⟩
        ⟨"a", some "b"⟩ 3).history.length
      = ([] : List HistoryEntry).length + 1 :=
  (C3_identity_mode_abort_silently ⟨[Entity.mk "a" "A", Entity.mk "b" "B"], []⟩
      ⟨"a", some "b"⟩ 3).2.2.2 "b" rfl (by decide) (by decide) (by decide)

/-- C4 counterexample: starting from an empty log, six `record` calls leave
the log holding six entries — more than the configured capacity
`HISTORY_DISPLAY_LIMIT = 5` — and the oldest entry is still present at the
head, so no eviction took place. -/
theorem C4_counterexample :
    (recordTimes [0, 1, 2, 3, 4, 5]).length = 6 ∧
    HISTORY_DISPLAY_LIMIT < (recordTimes [0, 1, 2, 3, 4, 5]).length ∧
    (recordTimes [0, 1, 2, 3, 4, 5]).head? = some ⟨"t", "m", 0, false⟩ := by
  decide

/-- C4 amended: `record` appends unconditionally and never evicts: every
record grows the log by exactly one entry and keeps the whole previous log
(oldest entry included) as an initial segment, so the log itself is
unbounded; only the `recent` view is bounded by the capacity
`HISTORY_DISPLAY_LIMIT`. -/
theorem C4_log_append_only :
    ∀ (h : List HistoryEntry) (ty msg : String) (now : Nat) (w : Bool),
      (addHistoryEntry h ty msg now w).length = h.length + 1 ∧
      (addHistoryEntry h ty msg now w).take h.length = h ∧
      (getRecentHistory (addHistoryEntry h ty msg now w)).length
        ≤ HISTORY_DISPLAY_LIMIT := by
  intro h ty msg now w
  refine ⟨by simp [addHistoryEntry], ?_, ?_⟩
  · unfold addHistoryEntry
    exact List.take_left h _
  · rw [getRecentHistory_length]
    exact Nat.min_le_left _ _

/-- C5: the recent view holds exactly the last `min(limit, size)` entries of
the log — never more than the limit and never more than the log's size —
ordered most-recent first (entry `i` of the view is entry `size - 1 - i` of
the log), and recency is non-increasing along the view whenever the log is
chronologically ordered.  The embedding of `getRecentHistory` is a pure
function of the log (`slice` copies and `reverse` acts on the copy), so the
log itself is left unchanged. -/
theorem C5_recent_view :
    ∀ (h : List HistoryEntry),
      (getRecentHistory h).length = min HISTORY_DISPLAY_LIMIT h.length ∧
      (∀ i : Nat, i < (getRecentHistory h).length →
        (getRecentHistory h)[i]? = h[h.length - 1 - i]?) ∧
      (h.Pairwise (fun e₁ e₂ => e₁.timestamp ≤ e₂.timestamp) →
        (getRecentHistory h).Pairwise
          (fun e₁ e₂ => e₂.timestamp ≤ e₁.timestamp)) := by
  intro h
  refine ⟨getRecentHistory_length h, ?_, ?_⟩
  · intro i hi
    rw [getRecentHistory_length] at hi
    unfold getRecentHistory
    have hlt : i < (h.drop (h.length - HISTORY_DISPLAY_LIMIT)).length := by
      rw [List.length_drop]
      omega
    rw [List.getElem?_reverse hlt, List.getElem?_drop]
    congr 1
    rw [List.length_drop]
    omega
  · intro hp
    unfold getRecentHistory
    rw [List.pairwise_reverse]
    exact List.Pairwise.sublist (List.drop_sublist _ _) hp

/-- Witness for C5 on a concrete two-entry log. -/
theorem C5_witness :
    (getRecentHistory twoEntryLog).length
      = min HISTORY_DISPLAY_LIMIT twoEntryLog.length ∧
    (getRecentHistory twoEntryLog)[0]?
      = twoEntryLog[twoEntryLog.length - 1 - 0]? ∧
    (getRecentHistory twoEntryLog).Pairwise
      (fun e₁ e₂ => e₂.timestamp ≤ e₁.timestamp) :=
  ⟨(C5_recent_view twoEntryLog).1,
   (C5_recent_view twoEntryLog).2.1 0 (by decide),
   (C5_recent_view twoEntryLog).2.2 (by decide)⟩

/-- C6 counterexample: on the seeded 4-entity index-mode collection, the
request `move(2, 7)` has `newIndex = 7` outside `[0, 4)`, yet the handler
does not fail with `OutOfRange`: it returns a successful move result and the
collection is mutated (the out-of-range target is clamped to the end). -/
theorem C6_counterexample :
    handleDragEndIndex initialWrongItems ⟨2, some 7⟩
      = some (⟨2, 7, 2, 7⟩,
          [some "Položka A", some "Položka B", some "Položka D",
           some "Položka C"]) ∧
    ¬ ((7 : Int) < (initialWrongItems.length : Int)) ∧
    [some "Položka A", some "Položka B", some "Položka D", some "Položka C"]
      ≠ initialWrongItems.map some := by
  decide

/-- C6 amended: `move` is a no-op returning a null result when
`oldIndex = newIndex`, and also returns a null result when either raw index
is exactly `-1`; there is no `OutOfRange` failure: every other pair of
distinct indices — in range or not — is accepted and handed to `arrayMove`'s
splice semantics, which replace the collection with no error raised: when the
normalised source index hits an element the result permutes the entities (the
out-of-range target is clamped), and when it lies past the end nothing is
removed and an `undefined` slot is inserted instead, growing the array by
one. -/
theorem C6_noop_and_no_range_check :
    ∀ (items : List String) (a o : Int),
      handleDragEndIndex items ⟨a, some a⟩ = none ∧
      (a = -1 ∨ o = -1 → handleDragEndIndex items ⟨a, some o⟩ = none) ∧
      (a ≠ o → a ≠ -1 → o ≠ -1 →
        handleDragEndIndex items ⟨a, some o⟩
          = some (⟨a, o, a, o⟩, arrayMoveJS items a o) ∧
        (jsSpliceStart items.length a < items.length →
          (arrayMoveJS items a o).Perm (items.map some)) ∧
        (items.length ≤ jsSpliceStart items.length a →
          (arrayMoveJS items a o).Perm (none :: items.map some))) := by
  intro items a o
  refine ⟨?_, ?_, ?_⟩
  · simp [handleDragEndIndex]
  · intro hneg
    by_cases heq : a = o
    · simp [handleDragEndIndex, heq]
    · simp only [handleDragEndIndex]
      rw [if_neg heq, if_pos hneg]
  · intro hne h1 h2
    refine ⟨?_, fun hf => arrayMoveJS_perm_of_hit items a o hf,
      fun hf => arrayMoveJS_perm_of_miss items a o hf⟩
    simp only [handleDragEndIndex]
    rw [if_neg hne, if_neg (by tauto)]

/-- Witness for the amended C6 at concrete inputs: a `-1` reference yields a
null result; a distinct in-range pair yields the `arrayMoveJS` result, a
permutation of the entities; and the reachable stale request — delete index 1
of 4 items, then drag the now out-of-range index 3 — inserts an `undefined`
slot while keeping every entity. -/
theorem C6_witness :
    handleDragEndIndex initialWrongItems ⟨1, some (-1)⟩ = none ∧
    handleDragEndIndex initialWrongItems ⟨1, some 0⟩
      = some (⟨1, 0, 1, 0⟩, arrayMoveJS initialWrongItems 1 0) ∧
    (arrayMoveJS initialWrongItems 1 0).Perm (initialWrongItems.map some) ∧
    (arrayMoveJS ["Položka A", "Položka C", "Položka D"] 3 0).Perm
      (none :: (["Položka A", "Položka C", "Položka D"] : List String).map some) :=
  ⟨(C6_noop_and_no_range_check initialWrongItems 1 (-1)).2.1 (Or.inr rfl),
   ((C6_noop_and_no_range_check initialWrongItems 1 0).2.2
      (by decide) (by decide) (by decide)).1,
   ((C6_noop_and_no_range_check initialWrongItems 1 0).2.2
      (by decide) (by decide) (by decide)).2.1 (by decide),
   ((C6_noop_and_no_range_check ["Položka A", "Položka C", "Položka D"] 3 0).2.2
      (by decide) (by decide) (by decide)).2.2 (by decide)⟩

/-- C7 counterexample: inserting an entity whose id `a` already exists does
not fail with `DuplicateId` and does not leave the collection unchanged: the
entity is appended and the collection then holds two entities with id `a`. -/
theorem C7_counterexample :
    addItem [Entity.mk "a" "A"] (Entity.mk "a" "B")
      = [Entity.mk "a" "A", Entity.mk "a" "B"] ∧
    addItem [Entity.mk "a" "A"] (Entity.mk "a" "B") ≠ [Entity.mk "a" "A"] ∧
    ((addItem [Entity.mk "a" "A"] (Entity.mk "a" "B")).map Entity.id).count "a"
      = 2 := by
  decide

/-- C7 amended: `insert` appends the entity to the end of the sequence
unconditionally — the previous entities are kept as an initial segment and
the new entity becomes the last element; there is no duplicate-id detection,
so inserting an entity whose id already exists yields a collection holding at
least two entities with that id. -/
theorem C7_insert_appends_unconditionally :
    ∀ (items : List Entity) (e : Entity),
      (addItem items e).length = items.length + 1 ∧
      (addItem items e).getLast? = some e ∧
      (addItem items e).take items.length = items ∧
      (e.id ∈ items.map Entity.id →
        2 ≤ ((addItem items e).map Entity.id).count e.id) := by
  intro items e
  refine ⟨by simp [addItem], ?_, ?_, ?_⟩
  · unfold addItem
    rw [List.getLast?_append]
    rfl
  · unfold addItem
    exact List.take_left items [e]
  · intro hmem
    unfold addItem
    rw [List.map_append, List.count_append]
    have h1 : (items.map Entity.id).count e.id ≠ 0 := by
      intro hc
      exact (List.count_eq_zero.mp hc) hmem
    have h2 : (([e].map Entity.id)).count e.id = 1 := by simp
    omega

/-- Witness for the amended C7: appending an already-present id produces a
second entity with that id. -/
theorem C7_witness :
    2 ≤ ((addItem [Entity.mk "a" "A"] (Entity.mk "a" "B")).map Entity.id).count
        (Entity.mk "a" "B").id :=
  (C7_insert_appends_unconditionally [Entity.mk "a" "A"]
      (Entity.mk "a" "B")).2.2.2 (by decide)

/-- C9: `deleteItem` only removes matching entities: in identity mode the
result is a sublist of the original (so the surviving entities keep their
ids, values and relative order) and every entity whose id differs from the
reference survives; in index mode the result is likewise a sublist and every
position other than the deleted one survives. -/
theorem C9_delete_frame :
    ∀ (items : List Entity) (r : String) (ix : Int),
      (deleteItemById items r).Sublist items ∧
      (∀ e, e ∈ items → e.id ≠ r → e ∈ deleteItemById items r) ∧
      (deleteItemByIndex items ix).Sublist items ∧
      (∀ (j : Nat) (hj : j < items.length), (j : Int) ≠ ix →
        items.get ⟨j, hj⟩ ∈ deleteItemByIndex items ix) := by
  intro items r ix
  refine ⟨List.filter_sublist items, ?_, ?_, ?_⟩
  · intro e he hne
    refine List.mem_filter.mpr ⟨he, ?_⟩
    simpa using hne
  · have h := (List.filter_sublist (l := items.enum)
      (p := fun p => ((p.1 : Int) != ix))).map Prod.snd
    rw [List.enum_map_snd] at h
    exact h
  · intro j hj hne
    have henum : (j, items.get ⟨j, hj⟩) ∈ items.enum := by
      rw [List.mem_enum_iff_getElem?]
      simp [List.getElem?_eq_getElem hj]
    have hfil : (j, items.get ⟨j, hj⟩) ∈
        (items.enum).filter (fun p => ((p.1 : Int) != ix)) := by
      refine List.mem_filter.mpr ⟨henum, ?_⟩
      simpa using hne
    exact List.mem_map_of_mem Prod.snd hfil

/-- Witness for C9: concrete survivals in both reference modes. -/
theorem C9_witness :
    Entity.mk "b" "B" ∈
      deleteItemById [Entity.mk "a" "A", Entity.mk "b" "B"] "a" ∧
    Entity.mk "b" "B" ∈
      deleteItemByIndex [Entity.mk "a" "A", Entity.mk "b" "B"] 0 :=
  ⟨(C9_delete_frame [Entity.mk "a" "A", Entity.mk "b" "B"] "a" 0).2.1
      (Entity.mk "b" "B") (by decide) (by decide),
   (C9_delete_frame [Entity.mk "a" "A", Entity.mk "b" "B"] "a" 0).2.2.2
      1 (by decide) (by decide)⟩

/-- C10: invoking the index-mode delete handler with an index outside
`[0, length)` leaves the collection unchanged yet still appends a
warning-flagged history entry (interpolating the `undefined` read), in both
the `App.refactored.jsx` and the `App.jsx` versions of `handleWrongDelete` —
a history entry is recorded although no mutation occurred. -/
theorem C10_out_of_range_delete_still_logs :
    ∀ (s : WrongGenState) (w : WrongState) (i : Int) (now : Nat),
      (i < 0 ∨ (s.items.length : Int) ≤ i) →
      (i < 0 ∨ (w.items.length : Int) ≤ i) →
      ((handleWrongDelete s i now).items = s.items ∧
       (handleWrongDelete s i now).history
         = s.history ++ [⟨"wrong", "Smazána položka \"undefined\"", now, true⟩]) ∧
      ((handleWrongDeleteApp w i now).items = w.items ∧
       (handleWrongDeleteApp w i now).dragHistory
         = w.dragHistory ++
            [⟨"wrong", "Smazána položka \"undefined\" na indexu " ++ toString i,
              now, true⟩]) := by
  intro s w i now hs hw
  constructor
  · constructor
    · show deleteItemByIndex s.items i = s.items
      exact deleteItemByIndex_oob s.items i hs
    · show addHistoryEntry s.history "wrong"
          ("Smazána položka \"" ++ jsShow (jsGet s.items i) ++ "\"") now true = _
      rw [jsGet_out_of_range s.items i hs]
      rfl
  · constructor
    · show deleteItemByIndex w.items i = w.items
      exact deleteItemByIndex_oob w.items i hw
    · show w.dragHistory ++
          [⟨"wrong", "Smazána položka \"" ++ jsShow (jsGet w.items i) ++ "\" na indexu "
              ++ toString i, now, true⟩] = _
      rw [jsGet_out_of_range w.items i hw]
      rfl

/-- Witness for C10: deleting index 5 of a singleton collection changes
nothing yet logs the warning entry, in both variants. -/
theorem C10_witness :
    ((handleWrongDelete ⟨["A"], []⟩ 5 7).items = ["A"] ∧
     (handleWrongDelete ⟨["A"], []⟩ 5 7).history
       = [] ++ [⟨"wrong", "Smazána položka \"undefined\"", 7, true⟩]) ∧
    ((handleWrongDeleteApp ⟨["A"], []⟩ 5 7).items = ["A"] ∧
     (handleWrongDeleteApp ⟨["A"], []⟩ 5 7).dragHistory
       = [] ++ [⟨"wrong", "Smazána položka \"undefined\" na indexu " ++ toString (5 : Int),
           7, true⟩]) :=
  C10_out_of_range_delete_still_logs ⟨["A"], []⟩ ⟨["A"], []⟩ 5 7
    (by decide) (by decide)

end DndSpec
